import Mathlib

/-!
Verification development for the PiNet message-passing network
(`pinn/networks/pinet.py`).  The TensorFlow layers are shallowly embedded
over exact rational arithmetic:

* per-atom tensors (`Mat`) are functions `row → feature → ℚ` together with
  the row count `n` and the trailing feature width `w` (the only shape data
  the claims depend on);
* per-pair tensors (`PMat`) keep their rows as a `List` so that permutation
  and deletion of pairs can be stated directly;
* a Keras `Dense` layer is a record of its output width, bias flag,
  activation and materialized parameters; `kernel α β` is the weight from
  input channel `α` to output channel `β`, matching
  `y_β = act(Σ_α x_α W_{αβ} + b_β)`;
* learned parameters are universally quantified inputs: a theorem about all
  kernels/biases covers every materialization of the network.
-/

set_option maxHeartbeats 1000000

namespace PiNetSpec

/-- Per-atom (entity-indexed) tensor: `n` rows, `w` feature channels. -/
structure Mat where
  n : Nat
  w : Nat
  f : Nat → Nat → ℚ

/-- Per-pair tensor: one feature row per neighbour pair, feature width `w`. -/
structure PMat where
  w : Nat
  rows : List (Nat → ℚ)

/-- Elementwise `+` of TensorFlow; the result takes the (broadcast) shape of
the left operand, matching every use in the source (`transform(old) + new`,
`out_units(prop) + prev_output`). -/
def Mat.add (a b : Mat) : Mat :=
  { n := a.n, w := a.w, f := fun i γ => a.f i γ + b.f i γ }

/-- A materialized `tf.keras.layers.Dense(units, use_bias, activation)`. -/
structure Dense where
  units : Nat
  use_bias : Bool
  act : ℚ → ℚ
  kernel : Nat → Nat → ℚ
  bias : Nat → ℚ

/-- One dense layer applied to a single feature row of input width `wIn`. -/
def Dense.applyRow (d : Dense) (wIn : Nat) (row : Nat → ℚ) : Nat → ℚ :=
  fun β =>
    d.act ((∑ α in Finset.range wIn, row α * d.kernel α β) +
      if d.use_bias then d.bias β else 0)

/-- Dense layer on a per-atom tensor. -/
def Dense.apply (d : Dense) (x : Mat) : Mat :=
  { n := x.n, w := d.units, f := fun i => d.applyRow x.w (x.f i) }

/-- Dense layer mapped over the rows of a per-pair tensor. -/
def Dense.applyP (d : Dense) (x : PMat) : PMat :=
  { w := d.units, rows := x.rows.map (d.applyRow x.w) }

/-- Raw learned parameters of one dense layer, supplied at materialization. -/
structure DenseParams where
  kernel : Nat → Nat → ℚ
  bias : Nat → ℚ

/-- `FFLayer.__init__`: `[Dense(n_node, **kwargs) for n_node in n_nodes]`.
All layers share the same `**kwargs` (activation and bias flag); the `k`-th
layer receives its own materialized parameters `ps k`. -/
def mkFF (act : ℚ → ℚ) (useBias : Bool) (widths : List Nat)
    (ps : Nat → DenseParams) : List Dense :=
  widths.enum.map (fun ku =>
    { units := ku.2, use_bias := useBias, act := act,
      kernel := (ps ku.1).kernel, bias := (ps ku.1).bias })

/-- `FFLayer.call`: `for layer in self.dense_layers: tensor = layer(tensor)`
on a per-atom tensor. -/
def FFLayer.call (layers : List Dense) (x : Mat) : Mat :=
  layers.foldl (fun t l => l.apply t) x

/-- `FFLayer.call` on a per-pair tensor (the same source function; TensorFlow
dense layers act on the trailing axis of either tensor kind). -/
def FFLayer.callP (layers : List Dense) (x : PMat) : PMat :=
  layers.foldl (fun t l => l.applyP t) x

/-- The action of a dense-layer chain on one feature row (input width `wIn`);
`FFLayer.callP` is exactly this, mapped over the rows. -/
def FFLayer.callRow : List Dense → Nat → (Nat → ℚ) → (Nat → ℚ)
  | [], _, row => row
  | d :: rest, wIn, row => FFLayer.callRow rest d.units (d.applyRow wIn row)

theorem FFLayer.callP_rows (layers : List Dense) (x : PMat) :
    (FFLayer.callP layers x).rows = x.rows.map (FFLayer.callRow layers x.w) := by
  induction layers generalizing x with
  | nil => simp [FFLayer.callP, FFLayer.callRow]
  | cons d rest ih =>
      show (FFLayer.callP rest (d.applyP x)).rows = _
      rw [ih]
      simp [Dense.applyP, FFLayer.callRow, List.map_map]

theorem FFLayer.callP_length (layers : List Dense) (x : PMat) :
    (FFLayer.callP layers x).rows.length = x.rows.length := by
  rw [FFLayer.callP_rows]; exact List.length_map _ _

/-! ### ResUpdate (`ResUpdate.build` / `ResUpdate.call`) -/

/-- The transform chosen once by `ResUpdate.build`: either the identity
`lambda x: x` or a materialized bias-free, activation-free dense layer. -/
inductive ResTransform where
  | id : ResTransform
  | proj (d : Dense) : ResTransform

/-- `ResUpdate.build`: compares the trailing dims of the two input shapes;
equal widths select the identity, otherwise a
`Dense(shapes[1][-1], use_bias=False, activation=None)` with kernel `W`. -/
def ResUpdate.build (a b : Nat) (W : Nat → Nat → ℚ) : ResTransform :=
  if a = b then .id
  else .proj { units := b, use_bias := false, act := fun x => x,
               kernel := W, bias := fun _ => 0 }

def ResTransform.trans : ResTransform → Mat → Mat
  | .id, x => x
  | .proj d, x => d.apply x

/-- `ResUpdate.call`: `return self.transform(old) + new`. -/
def ResUpdate.call (t : ResTransform) (old new : Mat) : Mat :=
  Mat.add (t.trans old) new

/--
C2.  After `ResUpdate`'s one-time materialization at widths `(old.w, new.w)`:
if the widths match, the result is the exact elementwise sum `old + new`,
for every kernel `W` (no learned parameter is involved) and all values;
if they differ, the result is the bias-free linear projection of `old` to
width `new.w` through `W`, plus `new`.
-/
theorem resupdate_sum_or_projection (old new : Mat) (W : Nat → Nat → ℚ) :
    (old.w = new.w →
      (∀ i β, (ResUpdate.call (ResUpdate.build old.w new.w W) old new).f i β =
        old.f i β + new.f i β) ∧
      (ResUpdate.call (ResUpdate.build old.w new.w W) old new).w = new.w) ∧
    (old.w ≠ new.w →
      (∀ i β, (ResUpdate.call (ResUpdate.build old.w new.w W) old new).f i β =
        (∑ α in Finset.range old.w, old.f i α * W α β) + new.f i β) ∧
      (ResUpdate.call (ResUpdate.build old.w new.w W) old new).w = new.w) := by
  constructor
  · intro h
    rw [ResUpdate.build, if_pos h]
    exact ⟨fun i β => rfl, h⟩
  · intro h
    rw [ResUpdate.build, if_neg h]
    refine ⟨fun i β => ?_, rfl⟩
    show (fun x => x) ((∑ α in Finset.range old.w, old.f i α * W α β) + 0) +
      new.f i β = _
    simp

/-- Witness for C2 at concrete tensors: a matching-width pair (widths 2/2,
including an all-zero `old`) and a differing-width pair (widths 1/2). -/
theorem resupdate_sum_or_projection_witness :
    (ResUpdate.call
        (ResUpdate.build (Mat.mk 1 2 (fun _ _ => 0)).w
          (Mat.mk 1 2 (fun _ γ => (γ : ℚ) + 1)).w (fun _ _ => 5))
        (Mat.mk 1 2 (fun _ _ => 0)) (Mat.mk 1 2 (fun _ γ => (γ : ℚ) + 1))).f 0 1 =
      0 + ((1 : ℚ) + 1) ∧
    (ResUpdate.call
        (ResUpdate.build (Mat.mk 1 1 (fun _ _ => 3)).w
          (Mat.mk 1 2 (fun _ _ => 7)).w (fun _ _ => 5))
        (Mat.mk 1 1 (fun _ _ => 3)) (Mat.mk 1 2 (fun _ _ => 7))).f 0 0 =
      (∑ _x in Finset.range 1, (3 : ℚ) * 5) + 7 := by
  constructor
  · exact ((resupdate_sum_or_projection (Mat.mk 1 2 (fun _ _ => 0))
      (Mat.mk 1 2 (fun _ γ => (γ : ℚ) + 1)) (fun _ _ => 5)).1 rfl).1 0 1
  · exact ((resupdate_sum_or_projection (Mat.mk 1 1 (fun _ _ => 3))
      (Mat.mk 1 2 (fun _ _ => 7)) (fun _ _ => 5)).2 (by decide)).1 0 0

/-! ### PILayer (`PILayer.build` / `PILayer.call`) -/

/-- `PILayer.build`'s width list: `n_nodes_iter = n_nodes.copy();
n_nodes_iter[-1] *= n_basis` (for the nonempty lists the network uses). -/
def PILayer.buildWidths (n_nodes : List Nat) (nb : Nat) : List Nat :=
  n_nodes.dropLast ++ [n_nodes.getLastD 0 * nb]

structure PILayer where
  n_nodes : List Nat
  n_basis : Nat
  ff_layer : List Dense

/-- `PILayer.build`: `n_basis` is read off the trailing dimension of the
first concrete basis shape (`shapes[2][-1]`); the feed-forward stack is
created on the widened width list. -/
def PILayer.build (n_nodes : List Nat) (nBasis : Nat) (act : ℚ → ℚ)
    (ps : Nat → DenseParams) : PILayer :=
  { n_nodes := n_nodes, n_basis := nBasis,
    ff_layer := mkFF act true (PILayer.buildWidths n_nodes nBasis) ps }

/-- `tf.concat([prop_i, prop_j], axis=-1)` on one pair: receiver row first
(feature channels `0..w-1`), sender row second (channels `w..2w-1`). -/
def concatRows (w : Nat) (ri rj : Nat → ℚ) : Nat → ℚ :=
  fun α => if α < w then ri α else rj (α - w)

/-- Row-major semantics of `tf.reshape(x, [-1, c, nb])` restricted to one
leading index: entry `(p, γ, b)` of the reshaped tensor is entry
`(p, γ*nb + b)` of the flat one. -/
def reshapeRow (nb : Nat) (row : Nat → ℚ) : Nat → Nat → ℚ :=
  fun c b => row (c * nb + b)

/-- `PILayer.call`: gather receiver (`ind_2[:,0]`) and sender (`ind_2[:,1]`)
property rows, concatenate, apply the feed-forward stack, reshape to
`(n_pairs, n_nodes[-1], n_basis)` and contract against the basis
(`tf.einsum("pcb,pb->pc", inter, basis)`). -/
def PILayer.call (pl : PILayer) (ind_2 : List (Nat × Nat)) (prop : Mat)
    (basis : PMat) : PMat :=
  let cat : PMat :=
    { w := prop.w + prop.w,
      rows := ind_2.map (fun pr => concatRows prop.w (prop.f pr.1) (prop.f pr.2)) }
  let inter := FFLayer.callP pl.ff_layer cat
  { w := pl.n_nodes.getLastD 0,
    rows := (inter.rows.zip basis.rows).map (fun rb c =>
      ∑ b in Finset.range pl.n_basis,
        reshapeRow pl.n_basis rb.1 c b * rb.2 b) }

/-- PairwiseInteraction as the spec words it: per pair, gather the receiver
(column 0) and sender (column 1) property rows, concatenate receiver-first,
run the feed-forward stack, view the result as a `(c, n_basis)` matrix and
take the inner product of each of its `c` rows with the pair's basis
vector. -/
def PairwiseInteraction.specRows (pl : PILayer) (ind_2 : List (Nat × Nat))
    (prop : Mat) (basis : PMat) : List (Nat → ℚ) :=
  (ind_2.zip basis.rows).map (fun pb c =>
    ∑ b in Finset.range pl.n_basis,
      FFLayer.callRow pl.ff_layer (prop.w + prop.w)
        (concatRows prop.w (prop.f pb.1.1) (prop.f pb.1.2))
        (c * pl.n_basis + b) * pb.2 b)

theorem enumFrom_map_snd {α : Type} (n : Nat) (l : List α) :
    (List.enumFrom n l).map Prod.snd = l := by
  induction l generalizing n with
  | nil => rfl
  | cons a t ih => simp [List.enumFrom, ih]

theorem mkFF_units (act : ℚ → ℚ) (ub : Bool) (widths : List Nat)
    (ps : Nat → DenseParams) :
    (mkFF act ub widths ps).map Dense.units = widths := by
  rw [mkFF, List.map_map]
  have : (Dense.units ∘ fun ku : Nat × Nat =>
      Dense.mk ku.2 ub act (ps ku.1).kernel (ps ku.1).bias) = Prod.snd := rfl
  rw [this]
  exact enumFrom_map_snd 0 widths

theorem zip_map_left_eq {α β γ : Type} (f : α → γ) (l : List α) (m : List β) :
    (l.map f).zip m = (l.zip m).map (fun p => (f p.1, p.2)) := by
  induction l generalizing m with
  | nil => rfl
  | cons a t ih =>
      cases m with
      | nil => rfl
      | cons b u => simp [ih]

/--
C3.  `PILayer.call` computes exactly the spec's algorithm: rows of the
output are the per-pair contraction of the reshaped feed-forward image of
the receiver-first concatenation of the two gathered property rows, the
output width is the last configured width `c = n_nodes[-1]`, and the
feed-forward stack materialized by `PILayer.build` has the configured
widths with the last one internally multiplied by the basis width
`basis.w` observed at build time.
-/
theorem pilayer_call_matches_spec (n_nodes : List Nat) (act : ℚ → ℚ)
    (ps : Nat → DenseParams) (ind_2 : List (Nat × Nat)) (prop : Mat)
    (basis : PMat) :
    (PILayer.call (PILayer.build n_nodes basis.w act ps) ind_2 prop basis).rows =
      PairwiseInteraction.specRows (PILayer.build n_nodes basis.w act ps)
        ind_2 prop basis ∧
    (PILayer.call (PILayer.build n_nodes basis.w act ps) ind_2 prop basis).w =
      n_nodes.getLastD 0 ∧
    (PILayer.build n_nodes basis.w act ps).ff_layer.map Dense.units =
      n_nodes.dropLast ++ [n_nodes.getLastD 0 * basis.w] := by
  refine ⟨?_, rfl, mkFF_units _ _ _ _⟩
  show ((FFLayer.callP _ _).rows.zip basis.rows).map _ = _
  rw [FFLayer.callP_rows]
  show ((List.map _ (List.map _ ind_2)).zip basis.rows).map _ = _
  rw [List.map_map, zip_map_left_eq, List.map_map]
  rfl

/-! ### IPLayer (`IPLayer.call`) -/

/-- `tf.math.unsorted_segment_sum(data, segment_ids, num_segments)` over a
zeros-initialized accumulator: each `(id, row)` entry adds its row to output
row `id`.  The accumulator is a total function; the output of the source op
has `num_segments` rows, which is recorded by the caller (`IPLayer.call`). -/
def unsortedSegmentSum (l : List (Nat × (Nat → ℚ))) : Nat → Nat → ℚ :=
  l.foldl (fun acc pr => fun i γ => if i = pr.1 then acc i γ + pr.2 γ else acc i γ)
    (fun _ _ => 0)

/-- `IPLayer.call`: scatter-sum of the pair interactions onto the receiver
atoms, `ind_2[:, 0]` being the receiver column and
`n_atoms = tf.shape(prop)[0]` the output row count. -/
def IPLayer.call (ind_2 : List (Nat × Nat)) (prop : Mat) (inter : PMat) : Mat :=
  { n := prop.n, w := inter.w,
    f := unsortedSegmentSum ((ind_2.map Prod.fst).zip inter.rows) }

/-- The sum of the rows of `l` whose segment id equals `i`, at channel `γ`. -/
def filterSum (l : List (Nat × (Nat → ℚ))) (i γ : Nat) : ℚ :=
  ((l.filter (fun pr => pr.1 == i)).map (fun pr => pr.2 γ)).sum

theorem unsortedSegmentSum_aux (l : List (Nat × (Nat → ℚ)))
    (acc : Nat → Nat → ℚ) (i γ : Nat) :
    l.foldl (fun acc pr => fun i γ =>
        if i = pr.1 then acc i γ + pr.2 γ else acc i γ) acc i γ =
      acc i γ + filterSum l i γ := by
  induction l generalizing acc with
  | nil => simp [filterSum]
  | cons pr rest ih =>
      rw [List.foldl_cons, ih]
      by_cases h : i = pr.1
      · have hb : (pr.1 == i) = true := by simp [h]
        simp [filterSum, List.filter_cons, hb, if_pos h]
        ring
      · have hb : (pr.1 == i) = false := by
          simp only [beq_eq_false_iff_ne]; exact fun hc => h hc.symm
        simp [filterSum, List.filter_cons, hb, if_neg h]

theorem unsortedSegmentSum_eq (l : List (Nat × (Nat → ℚ))) (i γ : Nat) :
    unsortedSegmentSum l i γ = filterSum l i γ := by
  rw [unsortedSegmentSum, unsortedSegmentSum_aux]; ring

/--
C4.  `IPLayer.call` returns a tensor of shape `(n_entities, c)` (row count
taken from `prop`, width from the interaction) whose row `i` is the sum of
exactly those interaction rows whose pair's receiver index (`ind_2[:, 0]`)
equals `i`; an entity no pair points to receives the all-zero row.
-/
theorem iplayer_scatter_sum (ind_2 : List (Nat × Nat)) (prop : Mat)
    (inter : PMat) :
    (∀ i γ, (IPLayer.call ind_2 prop inter).f i γ =
      filterSum ((ind_2.map Prod.fst).zip inter.rows) i γ) ∧
    (IPLayer.call ind_2 prop inter).n = prop.n ∧
    (IPLayer.call ind_2 prop inter).w = inter.w ∧
    (∀ i, (∀ pr ∈ ind_2, pr.1 ≠ i) →
      ∀ γ, (IPLayer.call ind_2 prop inter).f i γ = 0) := by
  refine ⟨fun i γ => unsortedSegmentSum_eq _ i γ, rfl, rfl, fun i hi γ => ?_⟩
  rw [show (IPLayer.call ind_2 prop inter).f = unsortedSegmentSum
      ((ind_2.map Prod.fst).zip inter.rows) from rfl,
    unsortedSegmentSum_eq]
  have hempty : ((ind_2.map Prod.fst).zip inter.rows).filter
      (fun pr => pr.1 == i) = [] := by
    rw [List.filter_eq_nil_iff]
    intro pr hpr
    have h1 : pr.1 ∈ ind_2.map Prod.fst := (List.of_mem_zip hpr).1
    obtain ⟨q, hq, hq1⟩ := List.mem_map.1 h1
    simp only [beq_iff_eq]
    intro hc
    exact hi q hq (hq1.trans hc)
  rw [filterSum, hempty]
  rfl

/-- Witness for C4's zero-row clause: a pair list whose receivers are all
`0`, evaluated at the pair-free entity `1`. -/
theorem iplayer_scatter_sum_witness :
    (IPLayer.call [(0, 1)] (Mat.mk 2 1 (fun _ _ => 1))
      (PMat.mk 1 [fun _ => 4])).f 1 0 = 0 :=
  (iplayer_scatter_sum [(0, 1)] (Mat.mk 2 1 (fun _ _ => 1))
    (PMat.mk 1 [fun _ => 4])).2.2.2 1 (by decide) 0

theorem zip_map_fst_eq (l : List (Nat × Nat)) (m : List (Nat → ℚ)) :
    (l.map Prod.fst).zip m = (l.zip m).map (fun p => (p.1.1, p.2)) := by
  rw [zip_map_left_eq]

theorem filterSum_perm {l l' : List (Nat × (Nat → ℚ))} (h : l.Perm l')
    (i γ : Nat) : filterSum l i γ = filterSum l' i γ :=
  ((h.filter _).map _).sum_eq

/--
C5.  Aggregation is order-independent: permuting the pair rows (pair indices
together with their interaction rows) leaves `IPLayer.call`'s output exactly
unchanged (the embedding computes in exact arithmetic).
-/
theorem iplayer_perm_invariant (ind_2 ind_2' : List (Nat × Nat)) (prop : Mat)
    (inter inter' : PMat)
    (hlen : ind_2.length = inter.rows.length)
    (hlen' : ind_2'.length = inter'.rows.length)
    (hperm : (ind_2.zip inter.rows).Perm (ind_2'.zip inter'.rows)) :
    ∀ i γ, (IPLayer.call ind_2 prop inter).f i γ =
      (IPLayer.call ind_2' prop inter').f i γ := by
  intro i γ
  show unsortedSegmentSum _ i γ = unsortedSegmentSum _ i γ
  rw [unsortedSegmentSum_eq, unsortedSegmentSum_eq,
    zip_map_fst_eq, zip_map_fst_eq]
  exact filterSum_perm (hperm.map _) i γ

/-- Witness for C5: swapping the two pairs `((0,1), row 4)` and
`((1,0), row 6)` leaves the aggregated row of entity `0` unchanged. -/
theorem iplayer_perm_invariant_witness :
    (IPLayer.call [(0, 1), (1, 0)] (Mat.mk 2 1 (fun _ _ => 1))
      (PMat.mk 1 [fun _ => 4, fun _ => 6])).f 0 0 =
    (IPLayer.call [(1, 0), (0, 1)] (Mat.mk 2 1 (fun _ _ => 1))
      (PMat.mk 1 [fun _ => 6, fun _ => 4])).f 0 0 :=
  iplayer_perm_invariant [(0, 1), (1, 0)] [(1, 0), (0, 1)]
    (Mat.mk 2 1 (fun _ _ => 1))
    (PMat.mk 1 [fun _ => 4, fun _ => 6])
    (PMat.mk 1 [fun _ => 6, fun _ => 4])
    rfl rfl (List.Perm.swap _ _ _) 0 0

/-! ### OutLayer (`OutLayer.__init__` / `OutLayer.call`) -/

structure OutLayer where
  ff_layer : List Dense
  out_proj : Dense

/-- `OutLayer.__init__` as `PiNet` instantiates it (`OutLayer(out_nodes,
out_units)`, no further kwargs): the feed-forward stack keeps the Keras
`Dense` defaults (bias on, linear activation) and the scaling layer is
`Dense(out_units, activation=None, use_bias=False)` with kernel `W`.
(In the source the attribute `out_units` ends up holding that dense layer.) -/
def OutLayer.build (n_nodes : List Nat) (ps : Nat → DenseParams)
    (out_units : Nat) (W : Nat → Nat → ℚ) : OutLayer :=
  { ff_layer := mkFF (fun x => x) true n_nodes ps,
    out_proj := { units := out_units, use_bias := false, act := fun x => x,
                  kernel := W, bias := fun _ => 0 } }

/-- `OutLayer.call`: `prop = self.ff_layer(prop);
output = self.out_units(prop) + prev_output`.  The `ind_1` input is
accepted and unused, exactly as in the source. -/
def OutLayer.call (ol : OutLayer) (ind_1 : Mat) (prop prev : Mat) : Mat :=
  Mat.add (ol.out_proj.apply (FFLayer.call ol.ff_layer prop)) prev

/-! ### GCBlock (`GCBlock.__init__` / `GCBlock.call`) -/

structure GCBlock where
  pp_layer : List Dense
  pi_layer : PILayer
  ii_layer : List Dense

/-- `GCBlock.__init__`: `pp` and the `pi` feed-forward get the shared kwargs
(activation `act`, Keras default bias on); `iiargs` adds `use_bias=False`
for the `ii` feed-forward.  `nBasis` is the basis width the `PILayer`
observes at materialization. -/
def GCBlock.build (act : ℚ → ℚ) (pp_nodes pi_nodes ii_nodes : List Nat)
    (ppP piP iiP : Nat → DenseParams) (nBasis : Nat) : GCBlock :=
  { pp_layer := mkFF act true pp_nodes ppP,
    pi_layer := PILayer.build pi_nodes nBasis act piP,
    ii_layer := mkFF act false ii_nodes iiP }

/-- The refined per-pair interaction inside `GCBlock.call` (the value of
`inter` after the `pi` layer and the bias-free `ii` feed-forward). -/
def GCBlock.refinedInter (gc : GCBlock) (ind_2 : List (Nat × Nat))
    (prop : Mat) (basis : PMat) : PMat :=
  FFLayer.callP gc.ii_layer
    (PILayer.call gc.pi_layer ind_2 (FFLayer.call gc.pp_layer prop) basis)

/-- `GCBlock.call`: `prop = pp(prop); inter = pi([ind_2, prop, basis]);
inter = ii(inter); prop = ip([ind_2, prop, inter])`. -/
def GCBlock.call (gc : GCBlock) (ind_2 : List (Nat × Nat)) (prop : Mat)
    (basis : PMat) : Mat :=
  IPLayer.call ind_2 (FFLayer.call gc.pp_layer prop)
    (gc.refinedInter ind_2 prop basis)

/-! ### The depth loop of `PiNet.call` -/

/-- `output = 0.0`: the additive-identity seed of the readout accumulator
(a scalar zero broadcast against the first block's contribution). -/
def zeroMat : Mat := { n := 0, w := 0, f := fun _ _ => 0 }

/-- The body of `PiNet.call`'s loop over `range(depth)`, taken along the
per-depth triples `(gc_blocks[i], out_layers[i], res_update[i])`:

    prop = self.gc_blocks[i]([tensors["ind_2"], tensors["prop"], basis])
    output = self.out_layers[i]([tensors["ind_1"], prop, output])
    tensors["prop"] = self.res_update[i]([tensors["prop"], prop])

The three component lists all have `depth` elements, so iterating the
zipped list is the source's indexed loop.  Returns (final property,
final pre-pooling output). -/
def PiNet.loop (ind_1 : Mat) (ind_2 : List (Nat × Nat)) (basis : PMat) :
    List (GCBlock × OutLayer × ResTransform) → Mat → Mat → Mat × Mat
  | [], prop, output => (prop, output)
  | (gc, ol, ru) :: rest, prop, output =>
      PiNet.loop ind_1 ind_2 basis rest
        (ResUpdate.call ru prop (GCBlock.call gc ind_2 prop basis))
        (OutLayer.call ol ind_1 (GCBlock.call gc ind_2 prop basis) output)

/-- The per-block readout contributions as the spec describes them: for each
depth level, the bias-free projection of the feed-forward image of that
block's candidate property, the property evolving by the residual updates. -/
def PiNet.contribs (ind_2 : List (Nat × Nat)) (basis : PMat) :
    List (GCBlock × OutLayer × ResTransform) → Mat → List Mat
  | [], _ => []
  | (gc, ol, ru) :: rest, prop =>
      ol.out_proj.apply
          (FFLayer.call ol.ff_layer (GCBlock.call gc ind_2 prop basis)) ::
        PiNet.contribs ind_2 basis rest
          (ResUpdate.call ru prop (GCBlock.call gc ind_2 prop basis))

theorem pinet_loop_output_aux (ind_1 : Mat) (ind_2 : List (Nat × Nat))
    (basis : PMat) (trips : List (GCBlock × OutLayer × ResTransform))
    (prop output : Mat) (i u : Nat) :
    (PiNet.loop ind_1 ind_2 basis trips prop output).2.f i u =
      output.f i u +
        ((PiNet.contribs ind_2 basis trips prop).map (fun m => m.f i u)).sum := by
  induction trips generalizing prop output with
  | nil => simp [PiNet.loop, PiNet.contribs]
  | cons t rest ih =>
      obtain ⟨gc, ol, ru⟩ := t
      rw [PiNet.loop, ih]
      simp only [PiNet.contribs, List.map_cons, List.sum_cons]
      show (ol.out_proj.apply _).f i u + output.f i u + _ = _
      ring

/--
C7.  `OutLayer.call` returns `prev_output + proj(ff(property))`, where `ff`
is the biased feed-forward stack and `proj` the bias-free, activation-free
linear map to `out_units`; consequently the pre-pooling output of the depth
loop, seeded with the additive identity `output = 0.0`, is the sum of the
per-block contributions.
-/
theorem outlayer_accumulates_contributions :
    (∀ (n_nodes : List Nat) (ps : Nat → DenseParams) (out_units : Nat)
        (W : Nat → Nat → ℚ) (ind_1 prop prev : Mat) (i u : Nat),
      (OutLayer.call (OutLayer.build n_nodes ps out_units W) ind_1 prop prev).f i u =
        (∑ γ in Finset.range
            (FFLayer.call (mkFF (fun x => x) true n_nodes ps) prop).w,
          (FFLayer.call (mkFF (fun x => x) true n_nodes ps) prop).f i γ * W γ u) +
          prev.f i u) ∧
    (∀ (ind_1 : Mat) (ind_2 : List (Nat × Nat)) (basis : PMat)
        (trips : List (GCBlock × OutLayer × ResTransform)) (prop : Mat)
        (i u : Nat),
      (PiNet.loop ind_1 ind_2 basis trips prop zeroMat).2.f i u =
        ((PiNet.contribs ind_2 basis trips prop).map (fun m => m.f i u)).sum) := by
  constructor
  · intro n_nodes ps out_units W ind_1 prop prev i u
    show (fun x => x) (_ + if false = true then _ else 0) + prev.f i u = _
    simp only [if_neg (by decide : ¬ false = true), add_zero]
    rfl
  · intro ind_1 ind_2 basis trips prop i u
    rw [pinet_loop_output_aux]
    show 0 + _ = _
    ring

/-! ### Helpers for C8: zero basis rows contribute nothing -/

theorem getD_map_lt {α β : Type} (f : α → β) (l : List α) (p : Nat)
    (h : p < l.length) (da : α) (db : β) :
    (l.map f).getD p db = f (l.getD p da) := by
  induction l generalizing p with
  | nil => exact absurd h (Nat.not_lt_zero p)
  | cons a t ih =>
      cases p with
      | zero => rfl
      | succ q => exact ih q (Nat.lt_of_succ_lt_succ h)

theorem getD_zip_lt {α β : Type} (xs : List α) (ys : List β) (p : Nat)
    (h1 : p < xs.length) (h2 : p < ys.length) (da : α) (db : β) :
    (xs.zip ys).getD p (da, db) = (xs.getD p da, ys.getD p db) := by
  induction xs generalizing ys p with
  | nil => exact absurd h1 (Nat.not_lt_zero p)
  | cons x xt ih =>
      cases ys with
      | nil => exact absurd h2 (Nat.not_lt_zero p)
      | cons y yt =>
          cases p with
          | zero => rfl
          | succ q =>
              exact ih yt q (Nat.lt_of_succ_lt_succ h1) (Nat.lt_of_succ_lt_succ h2)

theorem map_eraseIdx {α β : Type} (f : α → β) (l : List α) (p : Nat) :
    (l.eraseIdx p).map f = (l.map f).eraseIdx p := by
  induction l generalizing p with
  | nil => rfl
  | cons a t ih =>
      cases p with
      | zero => rfl
      | succ q => simp [List.eraseIdx, ih]

theorem zip_eraseIdx {α β : Type} (xs : List α) (ys : List β) (p : Nat) :
    (xs.eraseIdx p).zip (ys.eraseIdx p) = (xs.zip ys).eraseIdx p := by
  induction xs generalizing ys p with
  | nil => simp
  | cons x xt ih =>
      cases ys with
      | nil => simp
      | cons y yt =>
          cases p with
          | zero => rfl
          | succ q =>
              show (x, y) :: (xt.eraseIdx q).zip (yt.eraseIdx q) =
                (x, y) :: (xt.zip yt).eraseIdx q
              rw [ih]

/-- Deleting an entry whose row vanishes at `γ` does not change the
scatter-sum at `γ`. -/
theorem filterSum_eraseIdx_zero (l : List (Nat × (Nat → ℚ))) (p i γ : Nat)
    (hp : p < l.length) (h0 : (l.getD p (0, fun _ => 0)).2 γ = 0) :
    filterSum l i γ = filterSum (l.eraseIdx p) i γ := by
  induction l generalizing p with
  | nil => exact absurd hp (Nat.not_lt_zero p)
  | cons e rest ih =>
      cases p with
      | zero =>
          have he : e.2 γ = 0 := h0
          show filterSum (e :: rest) i γ = filterSum rest i γ
          by_cases h : (e.1 == i) = true
          · simp [filterSum, List.filter_cons, h, he]
          · simp [filterSum, List.filter_cons,
              Bool.of_not_eq_true h]
      | succ q =>
          have hq : q < rest.length := Nat.lt_of_succ_lt_succ hp
          have h0' : (rest.getD q (0, fun _ => 0)).2 γ = 0 := h0
          show filterSum (e :: rest) i γ = filterSum (e :: rest.eraseIdx q) i γ
          by_cases h : (e.1 == i) = true
          · simp [filterSum, List.filter_cons, h]
            have := ih q hq h0'
            simp [filterSum] at this
            rw [this]
          · simp [filterSum, List.filter_cons, Bool.of_not_eq_true h]
            exact ih q hq h0'

theorem mkFF_mem_props (act : ℚ → ℚ) (ub : Bool) (widths : List Nat)
    (ps : Nat → DenseParams) :
    ∀ d ∈ mkFF act ub widths ps, d.use_bias = ub ∧ d.act = act := by
  intro d hd
  obtain ⟨ku, _, rfl⟩ := List.mem_map.1 hd
  exact ⟨rfl, rfl⟩

/-- A chain of bias-free dense layers whose activations fix `0` maps the
all-zero row to the all-zero row. -/
theorem callRow_zero (ls : List Dense)
    (h : ∀ d ∈ ls, d.use_bias = false ∧ d.act 0 = 0) :
    ∀ wIn, FFLayer.callRow ls wIn (fun _ => 0) = (fun _ => 0) := by
  induction ls with
  | nil => intro wIn; rfl
  | cons d rest ih =>
      intro wIn
      have hd := h d (List.mem_cons_self d rest)
      have happ : d.applyRow wIn (fun _ => 0) = (fun _ => 0) := by
        funext β
        simp [Dense.applyRow, hd.1, hd.2]
      rw [FFLayer.callRow, happ]
      exact ih (fun e he => h e (List.mem_cons_of_mem d he)) d.units

theorem pilayer_call_rows_length (pl : PILayer) (ind_2 : List (Nat × Nat))
    (prop : Mat) (basis : PMat) :
    (PILayer.call pl ind_2 prop basis).rows.length =
      min ind_2.length basis.rows.length := by
  show (((FFLayer.callP _ _).rows.zip basis.rows).map _).length = _
  rw [List.length_map, List.length_zip, FFLayer.callP_length]
  simp

/--
C8.  Because `GCBlock`'s pair-side transforms are bias-free (and the
activation fixes `0`, as the default `tanh` does): a pair whose basis
vector is exactly zero has an exactly zero refined interaction, and
`GCBlock.call`'s aggregated output is unchanged when that pair is deleted
from the pair set — the pair contributes exactly the additive identity.
-/
theorem zero_basis_zero_contribution (act : ℚ → ℚ)
    (pp_nodes pi_nodes ii_nodes : List Nat) (ppP piP iiP : Nat → DenseParams)
    (nBasis : Nat) (hact : act 0 = 0) (ind_2 : List (Nat × Nat)) (prop : Mat)
    (basis : PMat) (p : Nat) (hp : p < ind_2.length)
    (hlen : basis.rows.length = ind_2.length)
    (hb : ∀ b, basis.rows.getD p (fun _ => 0) b = 0) :
    (∀ γ, ((GCBlock.build act pp_nodes pi_nodes ii_nodes ppP piP iiP
        nBasis).refinedInter ind_2 prop basis).rows.getD p (fun _ => 0) γ = 0) ∧
    (∀ i γ, (GCBlock.call (GCBlock.build act pp_nodes pi_nodes ii_nodes ppP piP
        iiP nBasis) ind_2 prop basis).f i γ =
      (IPLayer.call (ind_2.eraseIdx p)
        (FFLayer.call (GCBlock.build act pp_nodes pi_nodes ii_nodes ppP piP iiP
          nBasis).pp_layer prop)
        (PMat.mk
          ((GCBlock.build act pp_nodes pi_nodes ii_nodes ppP piP iiP
            nBasis).refinedInter ind_2 prop basis).w
          (((GCBlock.build act pp_nodes pi_nodes ii_nodes ppP piP iiP
            nBasis).refinedInter ind_2 prop basis).rows.eraseIdx p))).f i γ) := by
  set gc := GCBlock.build act pp_nodes pi_nodes ii_nodes ppP piP iiP nBasis with hgc
  set prop1 := FFLayer.call gc.pp_layer prop with hprop1
  set catM : PMat := PMat.mk (prop1.w + prop1.w)
    (ind_2.map (fun pr => concatRows prop1.w (prop1.f pr.1) (prop1.f pr.2)))
    with hcatM
  set piOut := PILayer.call gc.pi_layer ind_2 prop1 basis with hpiOut
  have hPiLen : piOut.rows.length = ind_2.length := by
    rw [hpiOut, pilayer_call_rows_length, hlen, Nat.min_self]
  have hinterLen : (FFLayer.callP gc.pi_layer.ff_layer catM).rows.length =
      ind_2.length := by
    rw [FFLayer.callP_length, hcatM]
    exact List.length_map _ _
  have hzipLen : ((FFLayer.callP gc.pi_layer.ff_layer catM).rows.zip
      basis.rows).length = ind_2.length := by
    rw [List.length_zip, hinterLen, hlen, Nat.min_self]
  -- the basis-contracted interaction row of pair `p` is the zero row
  have hrows : piOut.rows =
      ((FFLayer.callP gc.pi_layer.ff_layer catM).rows.zip basis.rows).map
        (fun rb c => ∑ b in Finset.range gc.pi_layer.n_basis,
          reshapeRow gc.pi_layer.n_basis rb.1 c b * rb.2 b) := rfl
  have hPiRow : piOut.rows.getD p (fun _ => 0) = (fun _ => 0) := by
    rw [hrows,
      getD_map_lt _ _ p (by rw [hzipLen]; exact hp)
        ((fun _ => 0), (fun _ => 0)) (fun _ => 0),
      getD_zip_lt _ _ p (by rw [hinterLen]; exact hp)
        (by rw [hlen]; exact hp) (fun _ => 0) (fun _ => 0)]
    funext c
    simp [hb]
  have hiiProps : ∀ d ∈ gc.ii_layer, d.use_bias = false ∧ d.act 0 = 0 := by
    intro d hd
    have := mkFF_mem_props act false ii_nodes iiP d hd
    exact ⟨this.1, by rw [this.2]; exact hact⟩
  have hRefLen : (gc.refinedInter ind_2 prop basis).rows.length =
      ind_2.length := by
    show (FFLayer.callP gc.ii_layer piOut).rows.length = _
    rw [FFLayer.callP_length]; exact hPiLen
  have hZeroRow : (gc.refinedInter ind_2 prop basis).rows.getD p
      (fun _ => 0) = (fun _ => 0) := by
    show (FFLayer.callP gc.ii_layer piOut).rows.getD p (fun _ => 0) = _
    rw [FFLayer.callP_rows,
      getD_map_lt _ _ p (by rw [hPiLen]; exact hp) (fun _ => 0), hPiRow]
    exact callRow_zero gc.ii_layer hiiProps piOut.w
  refine ⟨fun γ => by rw [hZeroRow], fun i γ => ?_⟩
  show unsortedSegmentSum _ i γ = unsortedSegmentSum _ i γ
  rw [unsortedSegmentSum_eq, unsortedSegmentSum_eq]
  show filterSum ((ind_2.map Prod.fst).zip
      (gc.refinedInter ind_2 prop basis).rows) i γ =
    filterSum (((ind_2.eraseIdx p).map Prod.fst).zip
      ((gc.refinedInter ind_2 prop basis).rows.eraseIdx p)) i γ
  rw [map_eraseIdx, zip_eraseIdx]
  refine filterSum_eraseIdx_zero _ p i γ ?_ ?_
  · rw [List.length_zip, List.length_map, hRefLen, Nat.min_self]
    exact hp
  · rw [getD_zip_lt _ _ p (by rw [List.length_map]; exact hp)
      (by rw [hRefLen]; exact hp) 0 (fun _ => 0)]
    show ((gc.refinedInter ind_2 prop basis).rows.getD p (fun _ => 0)) γ = 0
    rw [hZeroRow]

/-- Witness for C8: one pair `(0,1)` with an all-zero basis row, identity
activation, empty entity transform, one-node pair transforms, all kernels
and biases 1. -/
theorem zero_basis_zero_contribution_witness :
    (((GCBlock.build (fun x => x) [] [1] [1]
        (fun _ => ⟨fun _ _ => 1, fun _ => 1⟩)
        (fun _ => ⟨fun _ _ => 1, fun _ => 1⟩)
        (fun _ => ⟨fun _ _ => 1, fun _ => 1⟩) 1).refinedInter [(0, 1)]
        (Mat.mk 2 1 (fun _ _ => 1))
        (PMat.mk 1 [fun _ => 0])).rows.getD 0 (fun _ => 0)) 0 = 0 ∧
    (GCBlock.call (GCBlock.build (fun x => x) [] [1] [1]
        (fun _ => ⟨fun _ _ => 1, fun _ => 1⟩)
        (fun _ => ⟨fun _ _ => 1, fun _ => 1⟩)
        (fun _ => ⟨fun _ _ => 1, fun _ => 1⟩) 1) [(0, 1)]
        (Mat.mk 2 1 (fun _ _ => 1)) (PMat.mk 1 [fun _ => 0])).f 0 0 =
      (IPLayer.call ([(0, 1)].eraseIdx 0)
        (FFLayer.call (GCBlock.build (fun x => x) [] [1] [1]
          (fun _ => ⟨fun _ _ => 1, fun _ => 1⟩)
          (fun _ => ⟨fun _ _ => 1, fun _ => 1⟩)
          (fun _ => ⟨fun _ _ => 1, fun _ => 1⟩) 1).pp_layer
          (Mat.mk 2 1 (fun _ _ => 1)))
        (PMat.mk
          ((GCBlock.build (fun x => x) [] [1] [1]
            (fun _ => ⟨fun _ _ => 1, fun _ => 1⟩)
            (fun _ => ⟨fun _ _ => 1, fun _ => 1⟩)
            (fun _ => ⟨fun _ _ => 1, fun _ => 1⟩) 1).refinedInter [(0, 1)]
            (Mat.mk 2 1 (fun _ _ => 1)) (PMat.mk 1 [fun _ => 0])).w
          (((GCBlock.build (fun x => x) [] [1] [1]
            (fun _ => ⟨fun _ _ => 1, fun _ => 1⟩)
            (fun _ => ⟨fun _ _ => 1, fun _ => 1⟩)
            (fun _ => ⟨fun _ _ => 1, fun _ => 1⟩) 1).refinedInter [(0, 1)]
            (Mat.mk 2 1 (fun _ _ => 1))
            (PMat.mk 1 [fun _ => 0])).rows.eraseIdx 0))).f 0 0 := by
  have h := zero_basis_zero_contribution (fun x => x) [] [1] [1]
    (fun _ => ⟨fun _ _ => 1, fun _ => 1⟩)
    (fun _ => ⟨fun _ _ => 1, fun _ => 1⟩)
    (fun _ => ⟨fun _ _ => 1, fun _ => 1⟩) 1 rfl [(0, 1)]
    (Mat.mk 2 1 (fun _ _ => 1)) (PMat.mk 1 [fun _ => 0]) 0 (by decide) rfl
    (fun b => rfl)
  exact ⟨h.1 0, h.2 0 0⟩

/-! ### `PiNet.__init__` -/

/-- The basis function selected by the `if basis_type == ... / elif ...`
dispatch in `PiNet.__init__`. -/
inductive BasisChoice where
  | polynomial (n_basis : Nat)
  | gaussian (center : Option ℚ) (gamma : ℚ) (rc : ℚ) (n_basis : Nat)
  deriving DecidableEq

/-- The constructor arguments of `PiNet` (strings for the variant names,
exactly as in the source; `act` is the activation name forwarded to the
blocks). -/
structure PiNetConfig where
  atom_types : List Nat
  rc : ℚ
  cutoff_type : String
  basis_type : String
  n_basis : Nat
  gamma : ℚ
  center : Option ℚ
  pp_nodes : List Nat
  pi_nodes : List Nat
  ii_nodes : List Nat
  out_nodes : List Nat
  out_units : Nat
  out_pool : Bool
  act : String
  depth : Nat
  deriving DecidableEq

/-- What `PiNet.__init__` actually stores: the width configuration of each
per-depth component and the (optional!) basis function.  The external
collaborator constructors it also calls (`PreprocessLayer`, `CutoffFunc`,
`ANNOutput`) live outside this file's source and are not part of any
claim's condition. -/
structure PiNetModel where
  depth : Nat
  basisFn : Option BasisChoice
  gcBlockCfgs : List (List Nat × List Nat × List Nat)
  outLayerCfgs : List (List Nat × Nat)
  resUpdateCount : Nat
  deriving DecidableEq

/-- `PiNet.__init__`.  A Python `raise` would surface as `.error`; the body
contains none: the `basis_type` dispatch is an `if/elif` with no `else`, so
an unrecognized name silently leaves `basis_fn` unassigned (`none`) and the
failure can only surface at the first forward call; `depth` is used only to
size the component lists (`range(depth - 1)` and `range(depth)` are empty
for `depth = 0`, matching truncated `Nat` subtraction). -/
def PiNet.init (cfg : PiNetConfig) : Except String PiNetModel :=
  Except.ok
    { depth := cfg.depth
      basisFn :=
        if cfg.basis_type = "polynomial" then some (.polynomial cfg.n_basis)
        else if cfg.basis_type = "gaussian" then
          some (.gaussian cfg.center cfg.gamma cfg.rc cfg.n_basis)
        else none
      gcBlockCfgs := ([], cfg.pi_nodes, cfg.ii_nodes) ::
        List.replicate (cfg.depth - 1) (cfg.pp_nodes, cfg.pi_nodes, cfg.ii_nodes)
      outLayerCfgs := List.replicate cfg.depth (cfg.out_nodes, cfg.out_units)
      resUpdateCount := cfg.depth }

/-- The default constructor arguments of `PiNet`, with the basis variant
name replaced by the unrecognized `"fourier"` and the depth by `0`. -/
def badCfg : PiNetConfig :=
  { atom_types := [1, 6, 7, 8], rc := 4, cutoff_type := "f1",
    basis_type := "fourier", n_basis := 4, gamma := 3, center := none,
    pp_nodes := [16, 16], pi_nodes := [16, 16], ii_nodes := [16, 16],
    out_nodes := [16, 16], out_units := 1, out_pool := false, act := "tanh",
    depth := 0 }

/--
Counterexample to C1: constructing `PiNet` with `depth = 0` and the
unrecognized basis variant `"fourier"` raises nothing — `__init__` returns
normally, with no basis function assigned, one convolution block and zero
readout/residual components.
-/
theorem pinet_init_no_validation_cex :
    PiNet.init badCfg = Except.ok
      { depth := 0, basisFn := none,
        gcBlockCfgs := [([], [16, 16], [16, 16])], outLayerCfgs := [],
        resUpdateCount := 0 } ∧
    badCfg.depth < 1 ∧ badCfg.basis_type ≠ "polynomial" ∧
      badCfg.basis_type ≠ "gaussian" := by
  refine ⟨?_, by decide, by decide, by decide⟩
  rfl

/--
C1 as amended: `PiNet.__init__` performs no validation.  For every
configuration whose basis variant name is unrecognized (and regardless of
`depth`, including `depth < 1`) construction succeeds, storing no basis
function — the error surfaces only at the first forward call, not at
construction.
-/
theorem pinet_init_defers_basis_error (cfg : PiNetConfig)
    (hb : cfg.basis_type ≠ "polynomial" ∧ cfg.basis_type ≠ "gaussian") :
    (PiNet.init cfg).isOk = true ∧
    ∀ m, PiNet.init cfg = Except.ok m →
      m.basisFn = none ∧ m.outLayerCfgs.length = cfg.depth ∧
        m.gcBlockCfgs.length = cfg.depth - 1 + 1 := by
  refine ⟨rfl, fun m hm => ?_⟩
  injection hm with h
  subst h
  refine ⟨?_, List.length_replicate _ _, ?_⟩
  · show (if cfg.basis_type = "polynomial" then _ else _) = none
    rw [if_neg hb.1, if_neg hb.2]
  · show (_ :: List.replicate (cfg.depth - 1) _).length = _
    rw [List.length_cons, List.length_replicate]

/-- Witness for C1's amended theorem at the concrete bad configuration. -/
theorem pinet_init_defers_basis_error_witness :
    (PiNet.init badCfg).isOk = true ∧
    (PiNet.init badCfg).toOption.map (fun m => m.basisFn) = some none ∧
    (PiNet.init badCfg).toOption.map (fun m => m.outLayerCfgs.length) =
      some badCfg.depth ∧
    (PiNet.init badCfg).toOption.map (fun m => m.gcBlockCfgs.length) =
      some (badCfg.depth - 1 + 1) := by
  have h := pinet_init_defers_basis_error badCfg ⟨by decide, by decide⟩
  exact ⟨h.1, congrArg some (h.2 _ rfl).1, congrArg some (h.2 _ rfl).2.1,
    congrArg some (h.2 _ rfl).2.2⟩

theorem replicate_get?_lt {α : Type} (n : Nat) (a : α) (j : Nat) (h : j < n) :
    (List.replicate n a).get? j = some a := by
  induction n generalizing j with
  | zero => exact absurd h (Nat.not_lt_zero j)
  | succ k ih =>
      cases j with
      | zero => rfl
      | succ i => exact ih i (Nat.lt_of_succ_lt_succ h)

/--
C6.  A feed-forward with an empty width list is the identity on every
input (entity- or pair-indexed), and `PiNet.__init__` configures exactly
block 0's entity-side (`pp`) transform with the empty width list while
every block `i` with `1 ≤ i < depth` uses the configured `pp_nodes`.
-/
theorem ff_empty_identity_and_block0_config (cfg : PiNetConfig) :
    (∀ x : Mat, FFLayer.call [] x = x) ∧
    (∀ x : PMat, FFLayer.callP [] x = x) ∧
    (∀ m, PiNet.init cfg = Except.ok m →
      m.gcBlockCfgs.get? 0 = some ([], cfg.pi_nodes, cfg.ii_nodes) ∧
      ∀ i, 1 ≤ i → i < cfg.depth →
        m.gcBlockCfgs.get? i =
          some (cfg.pp_nodes, cfg.pi_nodes, cfg.ii_nodes)) := by
  refine ⟨fun x => rfl, fun x => rfl, fun m hm => ?_⟩
  injection hm with h
  subst h
  refine ⟨rfl, fun i h1 hi => ?_⟩
  show (_ :: List.replicate (cfg.depth - 1) _).get? i = _
  cases i with
  | zero => exact absurd h1 (by decide)
  | succ j =>
      show (List.replicate (cfg.depth - 1) _).get? j = _
      exact replicate_get?_lt _ _ j (by omega)

/-- The default constructor arguments of `PiNet` (`depth = 4`, polynomial
basis). -/
def defaultCfg : PiNetConfig :=
  { badCfg with basis_type := "polynomial", depth := 4 }

/-- Witness for C6 at the `depth = 4` defaults: block 0 empty, block 2 full. -/
theorem ff_empty_identity_and_block0_config_witness :
    FFLayer.call [] (Mat.mk 1 1 (fun _ _ => 7)) = Mat.mk 1 1 (fun _ _ => 7) ∧
    (PiNet.init defaultCfg).toOption.map (fun m => m.gcBlockCfgs.get? 0) =
      some (some ([], [16, 16], [16, 16])) ∧
    (PiNet.init defaultCfg).toOption.map (fun m => m.gcBlockCfgs.get? 2) =
      some (some ([16, 16], [16, 16], [16, 16])) := by
  have h := ff_empty_identity_and_block0_config defaultCfg
  exact ⟨h.1 _, congrArg some ((h.2.2 _ rfl).1),
    congrArg some ((h.2.2 _ rfl).2 2 (by decide) (by decide))⟩

/-! ### The input dictionary and `PreprocessLayer.call` -/

/-- A named tensor as stored in the input dictionary: its shape and its
row-major flat data.  Only shapes and identity matter to the dictionary
claims. -/
structure TTensor where
  shape : List Nat
  flat : List ℚ
  deriving DecidableEq

/-- `tf.reshape(tensors[k], tf.shape(tensors[k])[:1])`: reshape to the
leading dimension only (rank 1). -/
def reshapeTo1 (t : TTensor) : TTensor :=
  { shape := t.shape.take 1, flat := t.flat }

/-- The `tensors` argument: a Python dict from key strings to tensors. -/
abbrev Dict : Type := List (String × TTensor)

def dictGet : Dict → String → Option TTensor
  | [], _ => none
  | kv :: rest, k => if kv.1 = k then some kv.2 else dictGet rest k

/-- `d[k] = v`: replace the binding of `k`, or append it. -/
def dictSet : Dict → String → TTensor → Dict
  | [], k, v => [(k, v)]
  | kv :: rest, k, v =>
      if kv.1 = k then (k, v) :: rest else kv :: dictSet rest k v

/-- `d.update(upd)`: set every binding of `upd` in `d`. -/
def dictUpdate (d : Dict) (upd : Dict) : Dict :=
  upd.foldl (fun acc kv => dictSet acc kv.1 kv.2) d

/-- One iteration of the loop
`for k in ["elems", "dist"]: if k in tensors.keys(): tensors[k] = reshape(...)`. -/
def reshapeKey (d : Dict) (k : String) : Dict :=
  match dictGet d k with
  | some t => dictSet d k (reshapeTo1 t)
  | none => d

/-- `PreprocessLayer.call` viewed as a map on dictionary values (its
aliasing behaviour — it mutates only a fresh `tensors.copy()` — is modelled
separately for C10).  `nl` is the external `CellListNL` collaborator
returning the dict of neighbour-list keys, `embed` the external
`AtomicOnehot` embedding composed with the dtype cast. -/
def PreprocessLayer.call (nl : Dict → Dict) (embed : TTensor → TTensor)
    (d : Dict) : Dict :=
  let d2 := (["elems", "dist"]).foldl reshapeKey d
  match dictGet d2 "ind_2" with
  | some _ => d2
  | none =>
      let d3 := dictUpdate d2 (nl d2)
      dictSet d3 "prop" (embed ((dictGet d3 "elems").getD ⟨[], []⟩))

theorem dictGet_set_self (d : Dict) (k : String) (v : TTensor) :
    dictGet (dictSet d k v) k = some v := by
  induction d with
  | nil => simp [dictSet, dictGet]
  | cons kv rest ih =>
      by_cases h : kv.1 = k
      · simp [dictSet, h, dictGet]
      · simp [dictSet, h, dictGet, ih]

theorem dictGet_set_ne (d : Dict) (k k' : String) (v : TTensor)
    (h : k ≠ k') : dictGet (dictSet d k v) k' = dictGet d k' := by
  induction d with
  | nil => simp [dictSet, dictGet, h]
  | cons kv rest ih =>
      by_cases hkv : kv.1 = k
      · rw [show dictSet (kv :: rest) k v = (k, v) :: rest by
            simp [dictSet, hkv]]
        show (if k = k' then some v else dictGet rest k') = _
        rw [if_neg h, show dictGet (kv :: rest) k' =
          (if kv.1 = k' then some kv.2 else dictGet rest k') from rfl,
          if_neg (by rw [hkv]; exact h)]
      · rw [show dictSet (kv :: rest) k v = kv :: dictSet rest k v by
            simp [dictSet, hkv]]
        show (if kv.1 = k' then some kv.2 else dictGet (dictSet rest k v) k') = _
        rw [ih]
        rfl

theorem dictGet_reshapeKey_self (d : Dict) (k : String) :
    dictGet (reshapeKey d k) k = (dictGet d k).map reshapeTo1 := by
  rw [reshapeKey]
  cases h : dictGet d k with
  | none => simp [h]
  | some t => simp [dictGet_set_self]

theorem dictGet_reshapeKey_ne (d : Dict) (k k' : String) (h : k ≠ k') :
    dictGet (reshapeKey d k) k' = dictGet d k' := by
  rw [reshapeKey]
  cases hg : dictGet d k with
  | none => rfl
  | some t => exact dictGet_set_ne d k k' (reshapeTo1 t) h

/--
Counterexample to C9: the group index `ind_1` supplied with shape
`(2, 1)` is NOT normalized to rank 1 by preprocessing — it comes out of
`PreprocessLayer.call` bound to the same rank-2 tensor (the reshape loop
touches only `elems` and `dist`).
-/
theorem preprocess_ind1_not_normalized_cex :
    dictGet (PreprocessLayer.call (fun _ => []) (fun t => t)
        [("ind_1", ⟨[2, 1], [0, 0]⟩), ("elems", ⟨[2, 1], [1, 6]⟩),
         ("ind_2", ⟨[2, 2], [0, 1, 1, 0]⟩), ("dist", ⟨[2], [1, 1]⟩)])
      "ind_1" = some ⟨[2, 1], [0, 0]⟩ ∧
    (⟨[2, 1], [0, 0]⟩ : TTensor).shape.length = 2 ∧ (2 : Nat) ≠ 1 := by
  exact ⟨rfl, rfl, by decide⟩

/--
C9 as amended: when the neighbour list is already present (`ind_2` in the
dict), preprocessing normalizes `elems` and `dist` (when present) to rank 1
by reshaping each to its leading dimension, and passes `ind_1` — the
group/molecule index — through unchanged; `ind_1` is not normalized.
-/
theorem preprocess_normalizes_elems_dist (nl : Dict → Dict)
    (embed : TTensor → TTensor) (d : Dict) (te : TTensor)
    (hind2 : (dictGet d "ind_2").isSome = true)
    (helems : dictGet d "elems" = some te) :
    dictGet (PreprocessLayer.call nl embed d) "elems" =
      some (reshapeTo1 te) ∧
    (reshapeTo1 te).shape = te.shape.take 1 ∧
    dictGet (PreprocessLayer.call nl embed d) "ind_1" = dictGet d "ind_1" ∧
    (∀ td, dictGet d "dist" = some td →
      dictGet (PreprocessLayer.call nl embed d) "dist" =
        some (reshapeTo1 td)) := by
  have hd2 : (["elems", "dist"]).foldl reshapeKey d =
      reshapeKey (reshapeKey d "elems") "dist" := rfl
  obtain ⟨v, hv⟩ := Option.isSome_iff_exists.mp hind2
  have hind2' : dictGet (reshapeKey (reshapeKey d "elems") "dist") "ind_2" =
      some v := by
    rw [dictGet_reshapeKey_ne _ _ _ (by decide),
      dictGet_reshapeKey_ne _ _ _ (by decide), hv]
  have hcall : PreprocessLayer.call nl embed d =
      reshapeKey (reshapeKey d "elems") "dist" := by
    rw [PreprocessLayer.call, hd2, hind2']
  refine ⟨?_, rfl, ?_, ?_⟩
  · rw [hcall, dictGet_reshapeKey_ne _ _ _ (by decide),
      dictGet_reshapeKey_self, helems]
    rfl
  · rw [hcall, dictGet_reshapeKey_ne _ _ _ (by decide),
      dictGet_reshapeKey_ne _ _ _ (by decide)]
  · intro td htd
    rw [hcall, dictGet_reshapeKey_self,
      dictGet_reshapeKey_ne _ _ _ (by decide), htd]
    rfl

/-- Witness for C9's amended theorem at a concrete dict (rank-2 `elems`,
rank-1 `dist`, `ind_2` present). -/
theorem preprocess_normalizes_elems_dist_witness :
    dictGet (PreprocessLayer.call (fun _ => []) (fun t => t)
        [("ind_1", ⟨[2, 1], [0, 0]⟩), ("elems", ⟨[2, 1], [1, 6]⟩),
         ("ind_2", ⟨[2, 2], [0, 1, 1, 0]⟩), ("dist", ⟨[2], [1, 1]⟩)])
      "elems" = some (reshapeTo1 ⟨[2, 1], [1, 6]⟩) ∧
    (reshapeTo1 (⟨[2, 1], [1, 6]⟩ : TTensor)).shape = [2] := by
  have h := preprocess_normalizes_elems_dist (fun _ => []) (fun t => t)
    [("ind_1", ⟨[2, 1], [0, 0]⟩), ("elems", ⟨[2, 1], [1, 6]⟩),
     ("ind_2", ⟨[2, 2], [0, 1, 1, 0]⟩), ("dist", ⟨[2], [1, 1]⟩)]
    ⟨[2, 1], [1, 6]⟩ (by rfl) (by rfl)
  exact ⟨h.1, rfl⟩

/-! ### Object identity: `tensors.copy()` and the frame property (C10) -/

/-- A store of dictionary objects; a Python variable holding a dict is an
index into the store, and in-place mutation (`tensors[k] = v`,
`tensors.update(...)`) rewrites the store at that index. -/
abbrev Store : Type := List Dict

def objGet (s : Store) (j : Nat) : Dict := s.getD j []

/-- `tensors[k] = v` on the dict object `j`. -/
def objSetKey (s : Store) (j : Nat) (k : String) (v : TTensor) : Store :=
  s.set j (dictSet (objGet s j) k v)

/-- `tensors.update(upd)` on the dict object `j`. -/
def objUpdate (s : Store) (j : Nat) (upd : Dict) : Store :=
  s.set j (dictUpdate (objGet s j) upd)

/-- `tensors = tensors.copy()`: allocate a fresh dict object with the same
bindings; returns the new store and the fresh object's index. -/
def objCopy (s : Store) (i : Nat) : Store × Nat :=
  (s ++ [objGet s i], s.length)

/-- The reshape-loop iteration on the dict object `j`. -/
def objReshapeKey (s : Store) (j : Nat) (k : String) : Store :=
  match dictGet (objGet s j) k with
  | some t => objSetKey s j k (reshapeTo1 t)
  | none => s

/-- `PreprocessLayer.call` with object identity: copy the caller's dict,
then perform every mutation on the copy only. -/
def PreprocessLayer.callStore (nl : Dict → Dict) (embed : TTensor → TTensor)
    (s : Store) (i : Nat) : Store × Nat :=
  let sj := objCopy s i
  let s1 := objReshapeKey (objReshapeKey sj.1 sj.2 "elems") sj.2 "dist"
  match dictGet (objGet s1 sj.2) "ind_2" with
  | some _ => (s1, sj.2)
  | none =>
      let s2 := objUpdate s1 sj.2 (nl (objGet s1 sj.2))
      (objSetKey s2 sj.2 "prop"
        (embed ((dictGet (objGet s2 sj.2) "elems").getD ⟨[], []⟩)), sj.2)

/-- `PiNet.call` with object identity: rebind `tensors` to the preprocessed
copy, then run the depth loop, whose only dictionary effect is
`tensors["prop"] = self.res_update[i](...)` on that copy (`blockVal i`
abstracts the per-iteration value — the output accumulator is a local
variable and never enters the dict).  Returns the final store and the index
of the dict the call worked on. -/
def PiNet.callStore (nl : Dict → Dict) (embed : TTensor → TTensor)
    (blockVal : Nat → Dict → TTensor) (depth : Nat) (s : Store) (i : Nat) :
    Store × Nat :=
  let sj := PreprocessLayer.callStore nl embed s i
  ((List.range depth).foldl
      (fun st k => objSetKey st sj.2 "prop" (blockVal k (objGet st sj.2)))
      sj.1,
    sj.2)

theorem getD_append_lt (s : Store) (x : Dict) (i : Nat) (h : i < s.length) :
    (s ++ [x]).getD i [] = s.getD i [] := by
  induction s generalizing i with
  | nil => exact absurd h (Nat.not_lt_zero i)
  | cons a t ih =>
      cases i with
      | zero => rfl
      | succ j => exact ih j (Nat.lt_of_succ_lt_succ h)

theorem getD_set_ne (s : Store) (j : Nat) (x : Dict) (i : Nat) (h : i ≠ j) :
    (s.set j x).getD i [] = s.getD i [] := by
  induction s generalizing i j with
  | nil => rfl
  | cons a t ih =>
      cases j with
      | zero =>
          cases i with
          | zero => exact absurd rfl h
          | succ i' => rfl
      | succ j' =>
          cases i with
          | zero => rfl
          | succ i' => exact ih j' i' (fun hc => h (by rw [hc]))

theorem objGet_objSetKey_ne (s : Store) (j : Nat) (k : String) (v : TTensor)
    (i : Nat) (h : i ≠ j) : objGet (objSetKey s j k v) i = objGet s i :=
  getD_set_ne s j _ i h

theorem objGet_objUpdate_ne (s : Store) (j : Nat) (upd : Dict) (i : Nat)
    (h : i ≠ j) : objGet (objUpdate s j upd) i = objGet s i :=
  getD_set_ne s j _ i h

theorem objGet_objReshapeKey_ne (s : Store) (j : Nat) (k : String) (i : Nat)
    (h : i ≠ j) : objGet (objReshapeKey s j k) i = objGet s i := by
  rw [objReshapeKey]
  cases dictGet (objGet s j) k with
  | none => rfl
  | some t => exact objGet_objSetKey_ne s j k (reshapeTo1 t) i h

theorem preprocessStore_snd (nl : Dict → Dict) (embed : TTensor → TTensor)
    (s : Store) (i : Nat) :
    (PreprocessLayer.callStore nl embed s i).2 = s.length := by
  rw [PreprocessLayer.callStore]
  cases dictGet (objGet (objReshapeKey (objReshapeKey (objCopy s i).1
      (objCopy s i).2 "elems") (objCopy s i).2 "dist") (objCopy s i).2)
      "ind_2" with
  | none => rfl
  | some t => rfl

theorem preprocessStore_preserves (nl : Dict → Dict)
    (embed : TTensor → TTensor) (s : Store) (i i' : Nat)
    (hi : i' < s.length) :
    objGet (PreprocessLayer.callStore nl embed s i).1 i' = objGet s i' := by
  have hne : i' ≠ s.length := Nat.ne_of_lt hi
  have hcopy : objGet (s ++ [objGet s i]) i' = objGet s i' :=
    getD_append_lt s _ i' hi
  rw [PreprocessLayer.callStore]
  cases dictGet (objGet (objReshapeKey (objReshapeKey (objCopy s i).1
      (objCopy s i).2 "elems") (objCopy s i).2 "dist") (objCopy s i).2)
      "ind_2" with
  | some t =>
      show objGet (objReshapeKey (objReshapeKey (s ++ [objGet s i])
        s.length "elems") s.length "dist") i' = _
      rw [objGet_objReshapeKey_ne _ _ _ _ hne,
        objGet_objReshapeKey_ne _ _ _ _ hne, hcopy]
  | none =>
      show objGet (objSetKey (objUpdate (objReshapeKey (objReshapeKey
        (s ++ [objGet s i]) s.length "elems") s.length "dist") s.length _)
        s.length _ _) i' = _
      rw [objGet_objSetKey_ne _ _ _ _ _ hne, objGet_objUpdate_ne _ _ _ _ hne,
        objGet_objReshapeKey_ne _ _ _ _ hne,
        objGet_objReshapeKey_ne _ _ _ _ hne, hcopy]

theorem foldl_objSetKey_preserves (l : List Nat) (j : Nat)
    (g : Nat → Dict → TTensor) (st : Store) (i : Nat) (h : i ≠ j) :
    objGet (l.foldl
        (fun st k => objSetKey st j "prop" (g k (objGet st j))) st) i =
      objGet st i := by
  induction l generalizing st with
  | nil => rfl
  | cons a t ih =>
      rw [List.foldl_cons, ih]
      exact objGet_objSetKey_ne _ _ _ _ _ h

/--
C10.  `PiNet.call` never mutates the caller's dictionary object: all key
insertions and the per-block replacement of `tensors["prop"]` happen on the
shallow copy made by `PreprocessLayer`, so after the call the caller's
object maps exactly the same keys to the same tensors, and the dict the
call worked on is the fresh copy, not the caller's object.
-/
theorem pinet_call_preserves_caller_dict (nl : Dict → Dict)
    (embed : TTensor → TTensor) (blockVal : Nat → Dict → TTensor)
    (depth : Nat) (s : Store) (i : Nat) (hi : i < s.length) :
    objGet (PiNet.callStore nl embed blockVal depth s i).1 i = objGet s i ∧
    (PiNet.callStore nl embed blockVal depth s i).2 = s.length ∧
    (PiNet.callStore nl embed blockVal depth s i).2 ≠ i := by
  have hsnd : (PreprocessLayer.callStore nl embed s i).2 = s.length :=
    preprocessStore_snd nl embed s i
  have hne : i ≠ (PreprocessLayer.callStore nl embed s i).2 := by
    rw [hsnd]; exact Nat.ne_of_lt hi
  have h3 : (PiNet.callStore nl embed blockVal depth s i).2 ≠ i := by
    show (PreprocessLayer.callStore nl embed s i).2 ≠ i
    rw [hsnd]
    exact (Nat.ne_of_lt hi).symm
  refine ⟨?_, hsnd, h3⟩
  show objGet ((List.range depth).foldl _
    (PreprocessLayer.callStore nl embed s i).1) i = _
  rw [foldl_objSetKey_preserves _ _ _ _ _ hne]
  exact preprocessStore_preserves nl embed s i i hi

/-- Witness for C10: a one-object store holding a populated dict, depth 2. -/
theorem pinet_call_preserves_caller_dict_witness :
    objGet (PiNet.callStore (fun _ => []) (fun t => t)
        (fun _ _ => ⟨[1], [0]⟩) 2
        [[("ind_1", ⟨[2, 1], [0, 0]⟩), ("elems", ⟨[2], [1, 6]⟩),
          ("ind_2", ⟨[2, 2], [0, 1, 1, 0]⟩), ("dist", ⟨[2], [1, 1]⟩)]]
        0).1 0 =
      objGet [[("ind_1", ⟨[2, 1], [0, 0]⟩), ("elems", ⟨[2], [1, 6]⟩),
          ("ind_2", ⟨[2, 2], [0, 1, 1, 0]⟩), ("dist", ⟨[2], [1, 1]⟩)]] 0 :=
  (pinet_call_preserves_caller_dict (fun _ => []) (fun t => t)
    (fun _ _ => ⟨[1], [0]⟩) 2
    [[("ind_1", ⟨[2, 1], [0, 0]⟩), ("elems", ⟨[2], [1, 6]⟩),
      ("ind_2", ⟨[2, 2], [0, 1, 1, 0]⟩), ("dist", ⟨[2], [1, 1]⟩)]]
    0 (by decide)).1

end PiNetSpec
